import Mathlib

/-!
Verification of the Aetherial asset-generation pipeline
(`scripts/generate_cloud_noise.py`, `scripts/generate_block_textures.py`).

The Python scripts are shallowly embedded:
* real-valued noise math (float64 arithmetic on `np.sin`, `np.sqrt`, …) is
  modelled over `ℝ`, with Python `% 1.0` on a non-negative value as
  `Int.fract`, `x - np.floor(x)` as `Int.fract`, and `int()` truncation of a
  non-negative value as `Int.floor`; Python's `& 255` on an arbitrary integer
  agrees with `% 256` (`Int.emod`, result in `[0, 256)`), which is how the
  mask is embedded;
* per-pixel color-law arithmetic, whose constants are all decimal literals,
  is modelled over `ℚ` so that concrete pixels can be evaluated;
* the NumPy division that can hit 0/0 (producing NaN) is modelled with
  `Option`, `none` standing for the NaN-poisoned result;
* the texture batch driver's filesystem interaction is modelled as a list of
  existing file names plus a per-entry failure oracle standing for exceptions
  raised by generation/encoding.
-/

namespace Aetherial

/-! ## Noise primitives of `generate_cloud_noise.py` -/

/-- `hash_float` (lines 12-14): `abs(np.sin(x * 12.9898 + 78.233) * 43758.5453) % 1.0`. -/
noncomputable def hash_float (x : ℝ) : ℝ :=
  Int.fract |Real.sin (x * 12.9898 + 78.233) * 43758.5453|

/-- `perlin_noise_3d` (lines 16-50): lattice value noise.  `xi` is
`np.floor(x).astype(int) & 255` (i.e. `⌊x⌋ % 256`), `xf` is
`x - np.floor(x)` (`Int.fract x`), `u,v,w` the smoothstep weights, the eight
corners are hashed from `xi + yi*57 + zi*113` with `+1` axis offsets, and the
result is trilinearly interpolated in x, then y, then z. -/
noncomputable def perlin_noise_3d (x y z : ℝ) : ℝ :=
  let xi : ℤ := ⌊x⌋ % 256
  let yi : ℤ := ⌊y⌋ % 256
  let zi : ℤ := ⌊z⌋ % 256
  let xf : ℝ := Int.fract x
  let yf : ℝ := Int.fract y
  let zf : ℝ := Int.fract z
  let u := xf * xf * (3.0 - 2.0 * xf)
  let v := yf * yf * (3.0 - 2.0 * yf)
  let w := zf * zf * (3.0 - 2.0 * zf)
  let n000 := hash_float ((xi : ℝ) + (yi : ℝ) * 57 + (zi : ℝ) * 113)
  let n001 := hash_float ((xi : ℝ) + (yi : ℝ) * 57 + ((zi + 1 : ℤ) : ℝ) * 113)
  let n010 := hash_float ((xi : ℝ) + ((yi + 1 : ℤ) : ℝ) * 57 + (zi : ℝ) * 113)
  let n011 := hash_float ((xi : ℝ) + ((yi + 1 : ℤ) : ℝ) * 57 + ((zi + 1 : ℤ) : ℝ) * 113)
  let n100 := hash_float (((xi + 1 : ℤ) : ℝ) + (yi : ℝ) * 57 + (zi : ℝ) * 113)
  let n101 := hash_float (((xi + 1 : ℤ) : ℝ) + (yi : ℝ) * 57 + ((zi + 1 : ℤ) : ℝ) * 113)
  let n110 := hash_float (((xi + 1 : ℤ) : ℝ) + ((yi + 1 : ℤ) : ℝ) * 57 + (zi : ℝ) * 113)
  let n111 := hash_float (((xi + 1 : ℤ) : ℝ) + ((yi + 1 : ℤ) : ℝ) * 57 + ((zi + 1 : ℤ) : ℝ) * 113)
  let nx00 := n000 * (1 - u) + n100 * u
  let nx01 := n001 * (1 - u) + n101 * u
  let nx10 := n010 * (1 - u) + n110 * u
  let nx11 := n011 * (1 - u) + n111 * u
  let nxy0 := nx00 * (1 - v) + nx10 * v
  let nxy1 := nx01 * (1 - v) + nx11 * v
  nxy0 * (1 - w) + nxy1 * w

/-- The 27 `(dz, dy, dx)` neighbor offsets of `worley_noise_3d`, in the
source's loop-nest order (`dz` outermost, then `dy`, then `dx`). -/
def neighborOffsets : List (ℤ × ℤ × ℤ) :=
  ([-1, 0, 1] : List ℤ).flatMap fun dz =>
    ([-1, 0, 1] : List ℤ).flatMap fun dy =>
      ([-1, 0, 1] : List ℤ).map fun dx => (dz, dy, dx)

/-- The distance from the sample `(x,y,z)` to the feature point of the
neighbor cell at offset `(dz, dy, dx)` (lines 68-82): the neighbor cell
coordinate is `np.floor(·) + d·`, its feature point is derived by chained
hashing, and the distance is Euclidean. -/
noncomputable def worley_dist (x y z : ℝ) (d : ℤ × ℤ × ℤ) : ℝ :=
  let nx : ℝ := (⌊x⌋ : ℝ) + (d.2.2 : ℝ)
  let ny : ℝ := (⌊y⌋ : ℝ) + (d.2.1 : ℝ)
  let nz : ℝ := (⌊z⌋ : ℝ) + (d.1 : ℝ)
  let hv := hash_float (nx * 374761393.0 + ny * 668265263.0 + nz * 1274126177.0)
  let fx := hv
  let fy := hash_float (hv * 2.0)
  let fz := hash_float (hv * 3.0)
  Real.sqrt (((nx + fx) - x) * ((nx + fx) - x) +
    ((ny + fy) - y) * ((ny + fy) - y) + ((nz + fz) - z) * ((nz + fz) - z))

/-- `worley_noise_3d` (lines 52-86): `min_dist` starts at `1.0`, is folded
with the 27 neighbor feature distances in loop order, and the result is
inverted: `1.0 - min_dist`. -/
noncomputable def worley_noise_3d (x y z : ℝ) : ℝ :=
  1.0 - (neighborOffsets.map (worley_dist x y z)).foldl min 1.0

/-! ## Spec-side reference definitions (for the refinement claim about
`perlinNoise3D`), written from the spec's words: smoothing `3t²-2t³`,
cell coordinates taken mod 256, corners hashed from `ix + iy·57 + iz·113`
with `+1` axis offsets, trilinear interpolation in x, then y, then z. -/

/-- Spec: `hash(v) = |sin(v·12.9898 + 78.233) · 43758.5453| mod 1.0`. -/
noncomputable def hashSpec (v : ℝ) : ℝ :=
  Int.fract |Real.sin (v * 12.9898 + 78.233) * 43758.5453|

/-- Spec: fractional offsets smoothed via `3t² - 2t³`. -/
noncomputable def fadeSpec (t : ℝ) : ℝ := 3 * t ^ 2 - 2 * t ^ 3

/-- Linear interpolation, used for the spec's trilinear combination. -/
noncomputable def lerpSpec (a b t : ℝ) : ℝ := a + (b - a) * t

/-- Spec: lattice-corner hash value at integer corner `(ix, iy, iz)`,
hash input `ix + iy·57 + iz·113`. -/
noncomputable def cornerSpec (ix iy iz : ℤ) : ℝ :=
  hashSpec ((ix : ℝ) + (iy : ℝ) * 57 + (iz : ℝ) * 113)

/-- The spec's reference `perlinNoise3D`: integer cell coordinates mod 256,
smoothed fractional offsets, eight corner hashes trilinearly interpolated in
x, then y, then z. -/
noncomputable def perlinNoise3D_spec (x y z : ℝ) : ℝ :=
  let ix : ℤ := ⌊x⌋ % 256
  let iy : ℤ := ⌊y⌋ % 256
  let iz : ℤ := ⌊z⌋ % 256
  let u := fadeSpec (Int.fract x)
  let v := fadeSpec (Int.fract y)
  let w := fadeSpec (Int.fract z)
  lerpSpec
    (lerpSpec (lerpSpec (cornerSpec ix iy iz) (cornerSpec (ix + 1) iy iz) u)
      (lerpSpec (cornerSpec ix (iy + 1) iz) (cornerSpec (ix + 1) (iy + 1) iz) u) v)
    (lerpSpec (lerpSpec (cornerSpec ix iy (iz + 1)) (cornerSpec (ix + 1) iy (iz + 1)) u)
      (lerpSpec (cornerSpec ix (iy + 1) (iz + 1)) (cornerSpec (ix + 1) (iy + 1) (iz + 1)) u) v)
    w

/-! ## The volumetric generator (`generate_3d_noise`, lines 88-123) -/

/-- `np.clip(v, 0.0, 1.0)`. -/
noncomputable def clip01 (v : ℝ) : ℝ := max 0 (min 1 v)

/-- The intensity stored at voxel `(x,y,z)` (lines 105-120): normalized
coordinates `x/size` scaled by 4 for the Perlin sample and by 2 for the
Worley sample, blended `perlin*0.6 + worley*0.4`, clipped to `[0,1]`, and
quantized by `int(noise * 255)` (truncation of a non-negative value). -/
noncomputable def cloudVoxel (size x y z : ℕ) : ℕ :=
  let nx : ℝ := (x : ℝ) / (size : ℝ)
  let ny : ℝ := (y : ℝ) / (size : ℝ)
  let nz : ℝ := (z : ℝ) / (size : ℝ)
  let perlin := perlin_noise_3d (nx * 4.0) (ny * 4.0) (nz * 4.0)
  let worley := worley_noise_3d (nx * 2.0) (ny * 2.0) (nz * 2.0)
  (⌊clip01 (perlin * 0.6 + worley * 0.4) * 255⌋).toNat

/-- The flattened voxel volume in serialization order: the source fills
`noise_data[z, y, x]` with `z` outermost, then `y`, then `x`, and
`data.tobytes()` emits that C-order layout, so the byte stream is the
concatenation of rows with `z` outermost. -/
noncomputable def generate_3d_noise (size : ℕ) : List ℕ :=
  (List.range size).flatMap fun z =>
    (List.range size).flatMap fun y =>
      (List.range size).map fun x => cloudVoxel size x y z

/-! ## Binary serialization (`save_binary_texture`, generate_cloud_noise.py lines 125-138) -/

/-- The 4 ASCII bytes of the magic string `"CN3D"` (`f.write(b'CN3D')`). -/
def magicBytes : List ℕ := [67, 78, 51, 68]

/-- `struct.pack('I', n)`: 4-byte little-endian unsigned 32-bit encoding
(the script targets a little-endian host). -/
def packU32LE (n : ℕ) : List ℕ :=
  [n % 256, n / 256 % 256, n / 65536 % 256, n / 16777216 % 256]

/-- `save_binary_texture` (lines 129-135): writes the magic, then the packed
size, then the raw voxel payload `data.tobytes()` (here the already-flattened
byte list). -/
def save_binary_texture (data : List ℕ) (size : ℕ) : List ℕ :=
  magicBytes ++ packU32LE size ++ data

/-! ## Per-pixel color laws (`generate_block_textures.py`)

Each compositor builds the image pixel-by-pixel from per-pixel noise samples;
the per-pixel channel arithmetic is embedded as a function of those samples.
`np.clip(v, 0, 255)` is `clip255`, and Python `int()` of the clipped
(non-negative) value is `Int.floor`. -/

/-- `np.clip(v, 0, 255)`. -/
def clip255 (q : ℚ) : ℚ := max 0 (min 255 q)

/-- One channel of `generate_metallic_pattern` (lines 460-489): brightness is
`1.2` when the primary sample exceeds `0.6`, else `0.9`; vein pixels
(`vein > 0.6`) use the ore color scaled by brightness, the rest use
`base * brightness + (n - 0.5) * variation`. -/
def metallic_channel (base ore variation : ℕ) (n vein : ℚ) : ℤ :=
  let brightness : ℚ := if (0.6 : ℚ) < n then 1.2 else 0.9
  if (0.6 : ℚ) < vein then ⌊clip255 ((ore : ℚ) * brightness)⌋
  else ⌊clip255 ((base : ℚ) * brightness + (n - 0.5) * (variation : ℚ))⌋

/-- One channel of `generate_fluid_pattern` (lines 510-534): brightness is
`0.8 + wave*0.5 + n*0.3` when `glow` is set, else `0.9 + wave*0.3`; the channel
is `base * brightness + (n - 0.5) * variation`, clipped and truncated. -/
def fluid_channel (base variation : ℕ) (glow : Bool) (n wave : ℚ) : ℤ :=
  let brightness : ℚ := if glow then 0.8 + wave * 0.5 + n * 0.3 else 0.9 + wave * 0.3
  ⌊clip255 ((base : ℚ) * brightness + (n - 0.5) * (variation : ℚ))⌋

set_option linter.unusedVariables false in
/-- One channel of `generate_ore_pattern` (lines 492-507): the function
receives `base_color` but never reads it; the channel is
`ore + (n - 0.5) * variation * 2`, clipped and truncated. -/
def ore_channel (base ore variation : ℕ) (n : ℚ) : ℤ :=
  ⌊clip255 ((ore : ℚ) + (n - 0.5) * (variation : ℚ) * 2)⌋

/-! ## Multi-octave 2D noise normalization (`perlin_noise_2d`, lines 326-368)

The octave accumulation draws `np.random.rand` gradients, so the accumulated
field is taken as an arbitrary list of samples; the final statement
`noise = (noise - noise.min()) / (noise.max() - noise.min())` is embedded
faithfully: when `max = min` NumPy evaluates `0.0 / 0.0` at every pixel,
yielding NaN, modelled as `none`. -/

/-- The normalization step of `perlin_noise_2d` (line 367) on the flattened
accumulated field. `none` models the NaN field NumPy produces when
`noise.max() == noise.min()`. -/
def perlin_noise_2d_normalize (noise : List ℚ) : Option (List ℚ) :=
  match noise with
  | [] => none
  | h :: t =>
      let mn := t.foldl min h
      let mx := t.foldl max h
      if mx - mn = 0 then none
      else some ((h :: t).map fun v => (v - mn) / (mx - mn))

/-! ## Texture batch driver (`main`, lines 569-604, and the `__main__`
handler, lines 607-620)

The catalog is iterated in order; an entry whose `<name>.png` already exists
is skipped. There is no try/except inside the loop, so an exception raised
while generating or saving one entry propagates to the `__main__` handler,
which prints the error and exits — aborting the rest of the batch. The
filesystem is the list `fs` of existing names; `fails` is the oracle saying
whether generating that entry raises. The result is
(final file set, names written in order, aborted flag). -/

def runBatch (fails : String → Bool) : List String → List String → List String × List String × Bool
  | [], fs => (fs, [], false)
  | name :: rest, fs =>
      if name ∈ fs then runBatch fails rest fs
      else if fails name then (fs, [], true)
      else
        let r := runBatch fails rest (name :: fs)
        (r.1, name :: r.2.1, r.2.2)

/-! # Theorems -/

/-! ## Flattened-volume layout lemmas -/

/-- Length of a `flatMap` over `range` whose pieces all have length `m`. -/
theorem length_range_flatMap {α : Type} (g : ℕ → List α) (n m : ℕ)
    (hg : ∀ i, (g i).length = m) : ((List.range n).flatMap g).length = n * m := by
  induction n with
  | zero => simp
  | succ k ih =>
      rw [List.range_succ, List.flatMap_append, List.length_append, ih,
        List.flatMap_singleton, hg]
      ring

/-- Indexing a `flatMap` over `range` whose pieces all have length `m`:
offset `i * m + j` lands at position `j` of piece `i`. -/
theorem getElem?_range_flatMap {α : Type} (g : ℕ → List α) (n m i j : ℕ)
    (hg : ∀ i, (g i).length = m) (hi : i < n) (hj : j < m) :
    ((List.range n).flatMap g)[i * m + j]? = (g i)[j]? := by
  induction n with
  | zero => exact absurd hi (Nat.not_lt_zero i)
  | succ k ih =>
      rw [List.range_succ, List.flatMap_append, List.flatMap_singleton]
      rcases Nat.lt_succ_iff_lt_or_eq.1 hi with h | h
      · have hlen : ((List.range k).flatMap g).length = k * m :=
          length_range_flatMap g k m hg
        have hidx : i * m + j < k * m := by
          calc i * m + j < i * m + m := Nat.add_lt_add_left hj _
            _ = (i + 1) * m := by ring
            _ ≤ k * m := Nat.mul_le_mul_right m h
        rw [List.getElem?_append_left (by rw [hlen]; exact hidx)]
        exact ih h
      · subst h
        have hlen : ((List.range i).flatMap g).length = i * m :=
          length_range_flatMap g i m hg
        rw [List.getElem?_append_right (by rw [hlen]; exact Nat.le_add_right _ _), hlen,
          Nat.add_sub_cancel_left]

/-- Position `z * size² + y * size + x` of the flattened volume is the voxel
`(x, y, z)`. -/
theorem generate_3d_noise_getElem (size x y z : ℕ)
    (hx : x < size) (hy : y < size) (hz : z < size) :
    (generate_3d_noise size)[z * (size * size) + (y * size + x)]? =
      some (cloudVoxel size x y z) := by
  unfold generate_3d_noise
  have hplane : ∀ zz : ℕ,
      ((List.range size).flatMap fun yy =>
        (List.range size).map fun xx => cloudVoxel size xx yy zz).length = size * size := by
    intro zz
    exact length_range_flatMap _ size size (fun _ => by simp)
  rw [getElem?_range_flatMap _ size (size * size) z (y * size + x) hplane hz
      (by calc y * size + x < y * size + size := Nat.add_lt_add_left hx _
        _ = (y + 1) * size := by ring
        _ ≤ size * size := Nat.mul_le_mul_right size hy)]
  rw [getElem?_range_flatMap _ size size y x (fun _ => by simp) hy hx]
  simp [List.getElem?_range hx]

/-! ## Range lemmas for the noise primitives -/

/-- The scalar hash lands in `[0, 1)`. -/
theorem hash_float_mem (x : ℝ) : 0 ≤ hash_float x ∧ hash_float x < 1 :=
  ⟨Int.fract_nonneg _, Int.fract_lt_one _⟩

/-- The smoothstep weight of a fractional offset lies in `[0, 1]`. -/
theorem smoothstep_mem {t : ℝ} (h0 : 0 ≤ t) (h1 : t ≤ 1) :
    0 ≤ t * t * (3.0 - 2.0 * t) ∧ t * t * (3.0 - 2.0 * t) ≤ 1 := by
  constructor
  · nlinarith
  · nlinarith [mul_nonneg (sq_nonneg (1 - t)) (by linarith : (0 : ℝ) ≤ 1 + 2 * t)]

/-- A convex combination of two values of `[0, 1)` stays in `[0, 1)`. -/
theorem lerp_mem {a b t : ℝ} (ha : 0 ≤ a ∧ a < 1) (hb : 0 ≤ b ∧ b < 1)
    (ht : 0 ≤ t ∧ t ≤ 1) : 0 ≤ a * (1 - t) + b * t ∧ a * (1 - t) + b * t < 1 := by
  obtain ⟨ha0, ha1⟩ := ha
  obtain ⟨hb0, hb1⟩ := hb
  obtain ⟨ht0, ht1⟩ := ht
  constructor
  · have h1 : 0 ≤ a * (1 - t) := mul_nonneg ha0 (by linarith)
    have h2 : 0 ≤ b * t := mul_nonneg hb0 ht0
    linarith
  · rcases le_total a b with h | h
    · nlinarith [mul_nonneg (sub_nonneg.2 h) (by linarith : (0 : ℝ) ≤ 1 - t)]
    · nlinarith [mul_nonneg (sub_nonneg.2 h) ht0]

/-- Trilinear interpolation of eight values of `[0, 1)` with weights in
`[0, 1]` stays in `[0, 1)`; the expression is the zeta-reduced body of
`perlin_noise_3d`. -/
theorem trilerp_mem {n000 n001 n010 n011 n100 n101 n110 n111 u v w : ℝ}
    (h000 : 0 ≤ n000 ∧ n000 < 1) (h001 : 0 ≤ n001 ∧ n001 < 1)
    (h010 : 0 ≤ n010 ∧ n010 < 1) (h011 : 0 ≤ n011 ∧ n011 < 1)
    (h100 : 0 ≤ n100 ∧ n100 < 1) (h101 : 0 ≤ n101 ∧ n101 < 1)
    (h110 : 0 ≤ n110 ∧ n110 < 1) (h111 : 0 ≤ n111 ∧ n111 < 1)
    (hu : 0 ≤ u ∧ u ≤ 1) (hv : 0 ≤ v ∧ v ≤ 1) (hw : 0 ≤ w ∧ w ≤ 1) :
    0 ≤ ((n000 * (1 - u) + n100 * u) * (1 - v) + (n010 * (1 - u) + n110 * u) * v) * (1 - w) +
        ((n001 * (1 - u) + n101 * u) * (1 - v) + (n011 * (1 - u) + n111 * u) * v) * w ∧
      ((n000 * (1 - u) + n100 * u) * (1 - v) + (n010 * (1 - u) + n110 * u) * v) * (1 - w) +
        ((n001 * (1 - u) + n101 * u) * (1 - v) + (n011 * (1 - u) + n111 * u) * v) * w < 1 :=
  lerp_mem (lerp_mem (lerp_mem h000 h100 hu) (lerp_mem h010 h110 hu) hv)
    (lerp_mem (lerp_mem h001 h101 hu) (lerp_mem h011 h111 hu) hv) hw

/-- `perlin_noise_3d` always lands in `[0, 1)`. -/
theorem perlin_noise_3d_mem (x y z : ℝ) :
    0 ≤ perlin_noise_3d x y z ∧ perlin_noise_3d x y z < 1 := by
  unfold perlin_noise_3d
  exact trilerp_mem (hash_float_mem _) (hash_float_mem _) (hash_float_mem _)
    (hash_float_mem _) (hash_float_mem _) (hash_float_mem _) (hash_float_mem _)
    (hash_float_mem _)
    (smoothstep_mem (Int.fract_nonneg x) (le_of_lt (Int.fract_lt_one x)))
    (smoothstep_mem (Int.fract_nonneg y) (le_of_lt (Int.fract_lt_one y)))
    (smoothstep_mem (Int.fract_nonneg z) (le_of_lt (Int.fract_lt_one z)))

/-- Folding `min` over non-negative values from a non-negative start stays
between `0` and the start. -/
theorem foldl_min_mem : ∀ (l : List ℝ) (a : ℝ), 0 ≤ a → (∀ d ∈ l, 0 ≤ d) →
    0 ≤ l.foldl min a ∧ l.foldl min a ≤ a := by
  intro l
  induction l with
  | nil => intro a h0 _; exact ⟨h0, le_rfl⟩
  | cons d t ih =>
      intro a h0 hl
      have hd : 0 ≤ d := hl d (List.mem_cons_self d t)
      have h := ih (min a d) (le_min h0 hd) (fun e he => hl e (List.mem_cons_of_mem d he))
      exact ⟨h.1, le_trans h.2 (min_le_left a d)⟩

/-- `worley_noise_3d` always lands in `[0, 1]`. -/
theorem worley_noise_3d_mem (x y z : ℝ) :
    0 ≤ worley_noise_3d x y z ∧ worley_noise_3d x y z ≤ 1 := by
  have hd : ∀ d ∈ neighborOffsets.map (worley_dist x y z), 0 ≤ d := by
    intro d hdm
    rcases List.mem_map.1 hdm with ⟨o, _, rfl⟩
    exact Real.sqrt_nonneg _
  have h := foldl_min_mem (neighborOffsets.map (worley_dist x y z)) 1.0 (by norm_num) hd
  unfold worley_noise_3d
  constructor
  · linarith [h.2]
  · linarith [h.1]

/-! ## Batch-driver lemmas -/

/-- The initial file set only grows: every pre-existing file is still present
after a batch run. -/
theorem runBatch_mono (fails : String → Bool) :
    ∀ (catalog : List String) (fs : List String) (n : String),
      n ∈ fs → n ∈ (runBatch fails catalog fs).1 := by
  intro catalog
  induction catalog with
  | nil => intro fs n hn; simpa [runBatch] using hn
  | cons name rest ih =>
      intro fs n hn
      by_cases hmem : name ∈ fs
      · simpa [runBatch, hmem] using ih fs n hn
      · by_cases hf : fails name
        · simpa [runBatch, hmem, hf] using hn
        · simpa [runBatch, hmem, hf] using ih (name :: fs) n (List.mem_cons_of_mem _ hn)

/-- A name that already exists never appears among the writes. -/
theorem runBatch_skips_existing (fails : String → Bool) :
    ∀ (catalog : List String) (fs : List String) (n : String),
      n ∈ fs → n ∉ (runBatch fails catalog fs).2.1 := by
  intro catalog
  induction catalog with
  | nil => intro fs n hn; simp [runBatch]
  | cons name rest ih =>
      intro fs n hn
      by_cases hmem : name ∈ fs
      · simpa [runBatch, hmem] using ih fs n hn
      · by_cases hf : fails name
        · simp [runBatch, hmem, hf]
        · have hne : n ≠ name := fun h => hmem (h ▸ hn)
          have := ih (name :: fs) n (List.mem_cons_of_mem _ hn)
          simp only [runBatch, if_neg hmem, if_neg hf]
          simpa [hne] using this

/-- Re-running the batch from the file set a first run produced performs no
writes and leaves the file set unchanged (the aborted flag, a property of the
catalog and oracle alone at that point, recurs identically). -/
theorem runBatch_idem (fails : String → Bool) :
    ∀ (catalog : List String) (fs : List String),
      runBatch fails catalog (runBatch fails catalog fs).1 =
        ((runBatch fails catalog fs).1, [], (runBatch fails catalog fs).2.2) := by
  intro catalog
  induction catalog with
  | nil => intro fs; simp [runBatch]
  | cons name rest ih =>
      intro fs
      by_cases hmem : name ∈ fs
      · have h1 : name ∈ (runBatch fails rest fs).1 := runBatch_mono fails rest fs name hmem
        simp only [runBatch, if_pos hmem, if_pos h1]
        exact ih fs
      · by_cases hf : fails name
        · simp [runBatch, hmem, hf]
        · have h1 : name ∈ (runBatch fails rest (name :: fs)).1 :=
            runBatch_mono fails rest (name :: fs) name (List.mem_cons_self _ _)
          simp only [runBatch, if_neg hmem, if_neg hf, if_pos h1]
          exact ih (name :: fs)

/-! # Claim theorems -/

/-- C1: for the volumetric generator with grid side 128, the payload byte at
offset `x + y*128 + z*128²` (z outermost, then y, then x) is the intensity of
voxel `(x,y,z)`, and that intensity is
`int(clamp(0.6·perlin(4x/128, 4y/128, 4z/128) + 0.4·worley(2x/128, 2y/128, 2z/128), 0, 1) · 255)`
with truncation. -/
theorem cloud_volume_voxel_formula_and_layout (x y z : ℕ)
    (hx : x < 128) (hy : y < 128) (hz : z < 128) :
    (generate_3d_noise 128)[x + y * 128 + z * 128 ^ 2]? =
      some (Int.toNat ⌊clip01
        (0.6 * perlin_noise_3d (4 * (x : ℝ) / 128) (4 * (y : ℝ) / 128) (4 * (z : ℝ) / 128) +
          0.4 * worley_noise_3d (2 * (x : ℝ) / 128) (2 * (y : ℝ) / 128) (2 * (z : ℝ) / 128)) *
        255⌋) := by
  have hidx : x + y * 128 + z * 128 ^ 2 = z * (128 * 128) + (y * 128 + x) := by ring
  rw [hidx, generate_3d_noise_getElem 128 x y z hx hy hz]
  have e4 : ∀ t : ℕ, (t : ℝ) / ((128 : ℕ) : ℝ) * 4.0 = 4 * (t : ℝ) / 128 := by
    intro t; push_cast; ring
  have e2 : ∀ t : ℕ, (t : ℝ) / ((128 : ℕ) : ℝ) * 2.0 = 2 * (t : ℝ) / 128 := by
    intro t; push_cast; ring
  simp only [cloudVoxel]
  rw [e4 x, e4 y, e4 z, e2 x, e2 y, e2 z,
    show ∀ p w : ℝ, p * 0.6 + w * 0.4 = 0.6 * p + 0.4 * w from fun p w => by ring]

/-- Witness for C1 at voxel `(0,0,0)`. -/
theorem cloud_volume_voxel_formula_and_layout_witness :
    (0 : ℕ) < 128 ∧
      (generate_3d_noise 128)[(0 : ℕ) + 0 * 128 + 0 * 128 ^ 2]? =
        some (Int.toNat ⌊clip01
          (0.6 * perlin_noise_3d (4 * ((0 : ℕ) : ℝ) / 128) (4 * ((0 : ℕ) : ℝ) / 128)
              (4 * ((0 : ℕ) : ℝ) / 128) +
            0.4 * worley_noise_3d (2 * ((0 : ℕ) : ℝ) / 128) (2 * ((0 : ℕ) : ℝ) / 128)
              (2 * ((0 : ℕ) : ℝ) / 128)) * 255⌋) :=
  ⟨by norm_num,
    cloud_volume_voxel_formula_and_layout 0 0 0 (by norm_num) (by norm_num) (by norm_num)⟩

/-- C2: the serialized stream is exactly the 4 ASCII bytes `"CN3D"`, then the
size as 4 little-endian bytes, then the `size³` payload bytes, for a total of
`8 + size³` bytes (72 bytes for size 4). -/
theorem binary_volume_file_layout (size : ℕ) (data : List ℕ) (h : data.length = size ^ 3) :
    (save_binary_texture data size).take 4 = [67, 78, 51, 68] ∧
      ((save_binary_texture data size).drop 4).take 4 =
        [size % 256, size / 256 % 256, size / 65536 % 256, size / 16777216 % 256] ∧
      (save_binary_texture data size).drop 8 = data ∧
      (save_binary_texture data size).length = 8 + size ^ 3 := by
  refine ⟨?_, ?_, ?_, ?_⟩
  · simp [save_binary_texture, magicBytes]
  · simp [save_binary_texture, magicBytes, packU32LE]
  · simp [save_binary_texture, magicBytes, packU32LE]
  · simp [save_binary_texture, magicBytes, packU32LE, h]
    omega

/-- Witness for C2 at size 4: the file is `8 + 4³ = 72` bytes. -/
theorem binary_volume_file_layout_witness :
    (List.replicate 64 7 : List ℕ).length = 4 ^ 3 ∧
      (save_binary_texture (List.replicate 64 7) 4).length = 8 + 4 ^ 3 ∧
      8 + 4 ^ 3 = 72 :=
  ⟨by decide, (binary_volume_file_layout 4 (List.replicate 64 7) (by decide)).2.2.2, by decide⟩

/-- C3 counterexample: at a non-vein metallic pixel with base 100,
variation 20 and primary sample 0 (so brightness 0.9), the code computes
`int(clip(100·0.9 + (0-0.5)·20)) = 80`, while the claimed law with its
factor of 2 on variation gives `int(clip(100·0.9 + (0-0.5)·20·2)) = 70`. -/
theorem metallic_variation_factor_counterexample :
    metallic_channel 100 0 20 0 0 = 80 ∧
      metallic_channel 100 0 20 0 0 ≠
        ⌊clip255 ((100 : ℚ) * 0.9 + ((0 : ℚ) - 0.5) * 20 * 2)⌋ := by
  constructor <;> norm_num [metallic_channel, clip255]

/-- C3 (amended): in the metallic compositor, every non-vein pixel
(`vein ≤ 0.6`), and in the fluid compositor every pixel, has channel value
`clamp(base·brightness + (n - 0.5)·variation, 0, 255)` — the variation term
enters with factor 1, not the default law's factor 2. -/
theorem metallic_fluid_additive_law (base ore variation : ℕ) (n vein : ℚ)
    (hv : vein ≤ 0.6) :
    metallic_channel base ore variation n vein =
        ⌊clip255 ((base : ℚ) * (if (0.6 : ℚ) < n then 1.2 else 0.9) +
          (n - 0.5) * (variation : ℚ))⌋ ∧
      ∀ (glow : Bool) (wave : ℚ),
        fluid_channel base variation glow n wave =
          ⌊clip255 ((base : ℚ) *
              (if glow then 0.8 + wave * 0.5 + n * 0.3 else 0.9 + wave * 0.3) +
            (n - 0.5) * (variation : ℚ))⌋ := by
  refine ⟨?_, fun glow wave => rfl⟩
  simp only [metallic_channel]
  rw [if_neg (not_lt.2 hv)]

/-- Witness for C3's amended law at a concrete metallic pixel. -/
theorem metallic_fluid_additive_law_witness :
    (0 : ℚ) ≤ 0.6 ∧
      metallic_channel 100 0 20 0 0 =
        ⌊clip255 ((100 : ℚ) * (if (0.6 : ℚ) < (0 : ℚ) then 1.2 else 0.9) +
          ((0 : ℚ) - 0.5) * (20 : ℚ))⌋ :=
  ⟨by norm_num, (metallic_fluid_additive_law 100 0 20 0 0 (by norm_num)).1⟩

/-- C4: `perlin_noise_2d` has no `max == min` special case.  On a degenerate
flat accumulated field (e.g. `width = height = 1`, where the field is a single
sample, so `max = min` always) the normalization divides by zero and the
output is NaN-poisoned (`none`) rather than the claimed defined constant
fallback field. -/
theorem perlin2d_normalize_nan_on_degenerate :
    perlin_noise_2d_normalize [0.5] = none ∧
      perlin_noise_2d_normalize [0.7, 0.7] = none := by
  constructor <;> norm_num [perlin_noise_2d_normalize]

/-- C5 counterexample: with a catalog of two generatable entries on an empty
output directory where the first entry's generation raises, the driver aborts:
the second entry is neither written nor present afterwards, refuting "it
continues processing every remaining catalog entry". -/
theorem batch_abort_counterexample :
    runBatch (fun n => n == "a") ["a", "b"] [] = ([], [], true) ∧
      "b" ∉ (runBatch (fun n => n == "a") ["a", "b"] []).2.1 ∧
      "b" ∉ (runBatch (fun n => n == "a") ["a", "b"] []).1 :=
  ⟨by decide, by decide, by decide⟩

/-- C5 (amended): if generating or encoding one material's texture fails, the
driver reports the failure and aborts the batch at that entry: nothing further
is written and the remaining catalog entries are not processed. -/
theorem batch_aborts_on_failure (fails : String → Bool) (name : String)
    (rest fs : List String) (h1 : name ∉ fs) (h2 : fails name = true) :
    runBatch fails (name :: rest) fs = (fs, [], true) := by
  simp [runBatch, h1, h2]

/-- Witness for C5's amended abort behavior. -/
theorem batch_aborts_on_failure_witness :
    "a" ∉ (["x"] : List String) ∧ (fun n => n == "a") "a" = true ∧
      runBatch (fun n => n == "a") ["a", "b"] ["x"] = (["x"], [], true) :=
  ⟨by decide, by decide,
    batch_aborts_on_failure (fun n => n == "a") "a" ["b"] ["x"] (by decide) (by decide)⟩

/-- C6: `perlin_noise_3d` equals the spec's reference definition (cells mod
256, smoothstep `3t²-2t³`, corner hashes `ix + iy·57 + iz·113` with `+1` axis
offsets, trilinear interpolation in x, then y, then z). -/
theorem perlin_noise_3d_matches_spec (x y z : ℝ) :
    perlin_noise_3d x y z = perlinNoise3D_spec x y z := by
  simp only [perlin_noise_3d, perlinNoise3D_spec, cornerSpec, hashSpec, hash_float,
    lerpSpec, fadeSpec]
  ring

/-- C7: `worley_noise_3d` lands in `[0, 1]` for all real coordinates. -/
theorem worley_noise_3d_in_unit_interval (x y z : ℝ) :
    0 ≤ worley_noise_3d x y z ∧ worley_noise_3d x y z ≤ 1 :=
  worley_noise_3d_mem x y z

/-- C8: the ore compositor's channel law is
`clamp(ore + (n - 0.5)·variation·2, 0, 255)`; for noise samples `n ∈ [0,1]`
the result stays within `ore ± variation`, and the result never depends on the
descriptor's base color. -/
theorem ore_pattern_law_and_bounds (base base' ore variation : ℕ) (n : ℚ)
    (h0 : 0 ≤ n) (h1 : n ≤ 1) (hore : ore ≤ 255) :
    ore_channel base ore variation n =
        ⌊clip255 ((ore : ℚ) + (n - 0.5) * (variation : ℚ) * 2)⌋ ∧
      (ore : ℤ) - (variation : ℤ) ≤ ore_channel base ore variation n ∧
      ore_channel base ore variation n ≤ (ore : ℤ) + (variation : ℤ) ∧
      ore_channel base ore variation n = ore_channel base' ore variation n := by
  have hvar : (0 : ℚ) ≤ (variation : ℚ) := by positivity
  have hql : (ore : ℚ) - (variation : ℚ) ≤ (ore : ℚ) + (n - 0.5) * (variation : ℚ) * 2 := by
    nlinarith [mul_nonneg h0 hvar]
  have hqu : (ore : ℚ) + (n - 0.5) * (variation : ℚ) * 2 ≤ (ore : ℚ) + (variation : ℚ) := by
    nlinarith [mul_le_mul_of_nonneg_right h1 hvar]
  have hore' : (ore : ℚ) ≤ 255 := by exact_mod_cast hore
  have hclipl : (ore : ℚ) - (variation : ℚ) ≤
      clip255 ((ore : ℚ) + (n - 0.5) * (variation : ℚ) * 2) := by
    unfold clip255
    exact le_trans (le_min (by linarith) hql) (le_max_right _ _)
  have hclipu : clip255 ((ore : ℚ) + (n - 0.5) * (variation : ℚ) * 2) ≤
      (ore : ℚ) + (variation : ℚ) := by
    unfold clip255
    exact max_le (by positivity) (le_trans (min_le_right _ _) hqu)
  refine ⟨rfl, ?_, ?_, rfl⟩
  · rw [ore_channel]
    exact Int.le_floor.2 (by push_cast; exact hclipl)
  · rw [ore_channel]
    calc ⌊clip255 ((ore : ℚ) + (n - 0.5) * (variation : ℚ) * 2)⌋
        ≤ ⌊((((ore : ℤ) + (variation : ℤ)) : ℤ) : ℚ)⌋ :=
          Int.floor_le_floor (by push_cast; exact hclipu)
      _ = (ore : ℤ) + (variation : ℤ) := Int.floor_intCast _

/-- Witness for C8 at the coal descriptor's numbers (ore 10, variation 15)
with noise sample `0.5` and two different base colors. -/
theorem ore_pattern_law_and_bounds_witness :
    (0 : ℚ) ≤ 0.5 ∧ (0.5 : ℚ) ≤ 1 ∧ (10 : ℕ) ≤ 255 ∧
      ((10 : ℤ) - (15 : ℤ) ≤ ore_channel 30 10 15 0.5 ∧
        ore_channel 30 10 15 0.5 ≤ (10 : ℤ) + (15 : ℤ) ∧
        ore_channel 30 10 15 0.5 = ore_channel 99 10 15 0.5) :=
  ⟨by norm_num, by norm_num, by norm_num,
    (ore_pattern_law_and_bounds 30 99 10 15 0.5 (by norm_num) (by norm_num) (by norm_num)).2.1,
    (ore_pattern_law_and_bounds 30 99 10 15 0.5 (by norm_num) (by norm_num) (by norm_num)).2.2.1,
    (ore_pattern_law_and_bounds 30 99 10 15 0.5 (by norm_num) (by norm_num) (by norm_num)).2.2.2⟩

/-- C9: an entry whose output already exists is never written, and a second
run from the file set a first run produced performs zero writes and leaves the
file set identical. -/
theorem batch_driver_idempotent (fails : String → Bool) (catalog fs : List String) :
    (∀ n ∈ fs, n ∉ (runBatch fails catalog fs).2.1) ∧
      runBatch fails catalog (runBatch fails catalog fs).1 =
        ((runBatch fails catalog fs).1, [], (runBatch fails catalog fs).2.2) :=
  ⟨fun n hn => runBatch_skips_existing fails catalog fs n hn,
    runBatch_idem fails catalog fs⟩

/-- Witness for C9 on a concrete catalog and file set. -/
theorem batch_driver_idempotent_witness :
    "a" ∈ (["a"] : List String) ∧
      "a" ∉ (runBatch (fun _ => false) ["a", "b"] ["a"]).2.1 ∧
      runBatch (fun _ => false) ["a", "b"] (runBatch (fun _ => false) ["a", "b"] ["a"]).1 =
        ((runBatch (fun _ => false) ["a", "b"] ["a"]).1, [],
          (runBatch (fun _ => false) ["a", "b"] ["a"]).2.2) :=
  ⟨by decide,
    (batch_driver_idempotent (fun _ => false) ["a", "b"] ["a"]).1 "a" (by decide),
    (batch_driver_idempotent (fun _ => false) ["a", "b"] ["a"]).2⟩

/-- C10: `perlin_noise_3d` always lands in `[0, 1)`, so every blended value
`perlin·0.6 + worley·0.4` already lies in `[0, 1]` before the explicit clamp
(the clamp is the identity there), and the quantized intensity
`⌊value·255⌋` lies in `[0, 255]`, fitting an 8-bit voxel without wrapping. -/
theorem perlin_blend_quantize_in_range (x y z a b c d e f : ℝ) :
    (0 ≤ perlin_noise_3d x y z ∧ perlin_noise_3d x y z < 1) ∧
      0 ≤ perlin_noise_3d a b c * 0.6 + worley_noise_3d d e f * 0.4 ∧
      perlin_noise_3d a b c * 0.6 + worley_noise_3d d e f * 0.4 < 1 ∧
      clip01 (perlin_noise_3d a b c * 0.6 + worley_noise_3d d e f * 0.4) =
        perlin_noise_3d a b c * 0.6 + worley_noise_3d d e f * 0.4 ∧
      0 ≤ ⌊(perlin_noise_3d a b c * 0.6 + worley_noise_3d d e f * 0.4) * 255⌋ ∧
      ⌊(perlin_noise_3d a b c * 0.6 + worley_noise_3d d e f * 0.4) * 255⌋ ≤ 255 := by
  obtain ⟨hp0, hp1⟩ := perlin_noise_3d_mem a b c
  obtain ⟨hw0, hw1⟩ := worley_noise_3d_mem d e f
  have h0 : 0 ≤ perlin_noise_3d a b c * 0.6 + worley_noise_3d d e f * 0.4 := by nlinarith
  have h1 : perlin_noise_3d a b c * 0.6 + worley_noise_3d d e f * 0.4 < 1 := by nlinarith
  refine ⟨perlin_noise_3d_mem x y z, h0, h1, ?_, ?_, ?_⟩
  · unfold clip01
    rw [min_eq_right (le_of_lt h1), max_eq_right h0]
  · exact Int.floor_nonneg.2 (by nlinarith)
  · calc ⌊(perlin_noise_3d a b c * 0.6 + worley_noise_3d d e f * 0.4) * 255⌋
        ≤ ⌊(255 : ℝ)⌋ := Int.floor_le_floor (by nlinarith)
      _ = 255 := by norm_num

end Aetherial
